import Mathlib

set_option maxHeartbeats 1000000

namespace App

/-
Shallow embedding of `src/app.py` (a Flask chat server driving a model peer
with sandbox- and browser-executed tools).  Pure logic is translated directly;
external effects (the subprocess sandbox, the model peer's stream, concurrent
browser submissions) are oracles passed as function arguments, and the
orchestration loop is modelled as a trace of externally visible actions.
-/

/-! ### Data model (spec section 3, `app.py` message dicts) -/

/-- Tool inputs are JSON objects whose fields are all strings in this app's
tool catalog (`TOOLS`, app.py lines 70-165). -/
abbrev ToolInput := List (String × String)

/-- Lookup of a key in a tool-input object, mirroring Python `dict.get`. -/
def inputGet (ti : ToolInput) (k : String) : Option String :=
  (ti.find? fun p => p.1 == k).map Prod.snd

/-- Assistant content blocks (serialize_block, app.py lines 172-178). -/
inductive ContentBlock where
  | text (text : String)
  | toolUse (id : String) (name : String) (input : ToolInput)
deriving DecidableEq

/-- A tool_result content block (app.py lines 455-459). -/
structure ToolResult where
  tool_use_id : String
  content : String
deriving DecidableEq

/-- Transcript messages: a human user message, a machine user message holding
tool results (app.py line 462), or an assistant turn (app.py lines 429-432). -/
inductive Message where
  | user (content : String)
  | toolResults (results : List ToolResult)
  | assistant (content : List ContentBlock)
deriving DecidableEq

/-- Role string of a message as serialized in app.py. -/
def Message.role : Message → String
  | Message.user _ => "user"
  | Message.toolResults _ => "user"
  | Message.assistant _ => "assistant"

/-! ### Progress events (the SSE protocol, app.py `sse` payloads) -/

/-- Progress events emitted while a round is working (never error/done). -/
inductive ProgressEvent where
  | text_start
  | text_delta (content : String)
  | tool_start (name : String)
  | tool_delta (content : String)
  | js (code : String) (tool_id : Option String)
  | tool_output (name : String) (tool_id : String) (result : String)
deriving DecidableEq

/-- Every SSE payload the server can emit. -/
inductive SSE where
  | progress (p : ProgressEvent)
  | error (content : String)
  | done (chat_id : Option String)
deriving DecidableEq

/-- Externally visible actions of the orchestrator, in order: SSE emissions,
model-peer invocations, transcript appends, sandbox calls, broker waits
(app.py lines 442-446) and transcript saves (save_chat). -/
inductive GAction where
  | emit (e : SSE)
  | callModel (msgs : List Message)
  | appendMsg (m : Message)
  | sandboxCall (name : String) (input : ToolInput)
  | brokerAwait (tool_id : String)
  | save (msgs : List Message)
deriving DecidableEq

/-- The message appended by an action, if any. -/
def GAction.appended : GAction → Option Message
  | GAction.appendMsg m => some m
  | _ => none

/-- True for actions that are neither an error emission, a done emission,
nor a save; used to state where those may occur in a trace. -/
def okAct : GAction → Bool
  | GAction.emit (SSE.error _) => false
  | GAction.emit (SSE.done _) => false
  | GAction.save _ => false
  | _ => true

/-! ### Python string primitives used by the edit_file tool -/

/-- Python's substring test `sub in s`, on code-point lists. -/
def strContains (sub : List Char) : List Char → Bool
  | [] => sub.isEmpty
  | c :: rest => sub.isPrefixOf (c :: rest) || strContains sub rest

/-- Python's non-overlapping, left-to-right occurrence scan `s.count(sub)` for
a nonempty `sub`; `skip` counts characters still covered by the last match. -/
def strCountSkip (sub : List Char) : Nat → List Char → Nat
  | _, [] => 0
  | Nat.succ n, _ :: rest => strCountSkip sub n rest
  | 0, c :: rest =>
    if sub.isPrefixOf (c :: rest) then 1 + strCountSkip sub (sub.length - 1) rest
    else strCountSkip sub 0 rest

/-- Python `s.count(sub)` (for the empty pattern Python returns `len(s)+1`). -/
def strCount (s sub : List Char) : Nat :=
  if sub.isEmpty then s.length + 1 else strCountSkip sub 0 s

/-- Replacement of the first occurrence of a nonempty `old`, scanning left to
right (the recursive core of Python `s.replace(old, new, 1)`). -/
def replaceFirstAux (old new : List Char) : List Char → List Char
  | [] => []
  | c :: rest =>
    if old.isPrefixOf (c :: rest) then new ++ List.drop (old.length - 1) rest
    else c :: replaceFirstAux old new rest

/-- Python `s.replace(old, new, 1)` (for empty `old` Python prepends `new`). -/
def pyReplaceFirst (s old new : List Char) : List Char :=
  if old.isEmpty then new ++ s else replaceFirstAux old new s

/-! ### Sandbox gateway operations (execute_sandbox_tool, app.py 221-296) -/

/-- Raw result of one sandbox_exec subprocess call. -/
structure ExecResult where
  stdout : String
  stderr : String
  code : Int
deriving DecidableEq

/-- The caller-visible result of the bash tool (app.py lines 223-232):
stdout, then stderr separated by a newline when both are nonempty, with the
"Exit code: N" substitute when there is no output and a failing exit, and the
"(no output)" fallback. -/
def bash_result (stdout stderr : String) (code : Int) : String :=
  let output1 := stdout
  let output2 :=
    if stderr = "" then output1
    else output1 ++ (if output1 = "" then "" else "\n") ++ stderr
  let output3 :=
    if code ≠ 0 ∧ output2 = "" then "Exit code: " ++ toString code else output2
  if output3 = "" then "(no output)" else output3

/-- Outcome of the edit_file tool: the content written back (if any write was
issued) and the result string returned to the model. -/
structure EditEffect where
  written : Option (List Char)
  result : String
deriving DecidableEq

/-- The edit_file tool (app.py lines 253-273), with the two sandbox_exec calls
(read via cat, write via cat >) supplied as oracles. -/
def edit_file (path old_string new_string : String)
    (readRes writeRes : ExecResult) : EditEffect :=
  if readRes.code ≠ 0 then
    { written := none, result := "Error reading " ++ path ++ ": " ++ readRes.stderr.trim }
  else
    let content := readRes.stdout
    if strContains old_string.data content.data = false then
      { written := none, result := "Error: old_string not found in " ++ path }
    else
      let count := strCount content.data old_string.data
      if count > 1 then
        { written := none
          result := "Error: old_string appears " ++ toString count ++ " times in " ++
            path ++ ". Must be unique." }
      else
        let new_content := pyReplaceFirst content.data old_string.data new_string.data
        if writeRes.code ≠ 0 then
          { written := some new_content
            result := "Error writing " ++ path ++ ": " ++ writeRes.stderr.trim }
        else
          { written := some new_content, result := "Edited " ++ path }

/-! ### Remote tool broker (pending_results / pending_events, app.py 20-22) -/

/-- The two module-level dicts holding pending browser tool results. -/
structure BrokerState where
  pending_results : String → Option String
  pending_events : String → Option Bool

/-- A broker state with no entries at all. -/
def brokerInit : BrokerState :=
  { pending_results := fun _ => none, pending_events := fun _ => none }

/-- Registration of a waiter (app.py line 419): pending_events[tool_id] gets a
fresh, unset event. -/
def register (s : BrokerState) (tid : String) : BrokerState :=
  { s with pending_events := fun k => if k = tid then some false else s.pending_events k }

/-- The /tool_result/<tool_id> endpoint (app.py lines 317-324): store the
submitted result (default "OK") and set the waiter's event if one exists. -/
def receive_tool_result (s : BrokerState) (tid : String) (res : Option String) : BrokerState :=
  { pending_results := fun k => if k = tid then some (res.getD "OK") else s.pending_results k
    pending_events := fun k =>
      if k = tid then (s.pending_events k).map (fun _ => true) else s.pending_events k }

/-- The wait-and-consume step of the round loop (app.py lines 442-446), acting
on the broker state as it stands when the wait completes: pop the result
(default "OK") and pop the event entry. -/
def await_consume (s : BrokerState) (tid : String) : String × BrokerState :=
  ((s.pending_results tid).getD "OK",
   { pending_results := fun k => if k = tid then none else s.pending_results k
     pending_events := fun k => if k = tid then none else s.pending_events k })

/-! ### Stream assembler (the event loop, app.py lines 380-425) -/

/-- Block-open event payloads (event.content_block). -/
inductive StartBlock where
  | text
  | tool_use (id : String) (name : String)
deriving DecidableEq

/-- Block-delta event payloads (event.delta). -/
inductive DeltaEvent where
  | text_delta (text : String)
  | input_json_delta (fragment : String)
deriving DecidableEq

/-- Incremental events consumed from the model peer's stream. -/
inductive StreamEvent where
  | content_block_start (b : StartBlock)
  | content_block_delta (d : DeltaEvent)
  | content_block_stop
  | message_delta (stop_reason : Option String)
deriving DecidableEq

/-- The per-round mutable stream state (app.py lines 381-385), plus the list
of broker registrations performed while streaming. -/
structure AsmState where
  current_block_type : Option String
  current_tool_name : Option String
  tool_id : Option String
  tool_input_parts : List String
  stop_reason : Option String
  registered : List (Option String)
deriving DecidableEq

/-- The stream state at the top of each round. -/
def AsmState.initial : AsmState :=
  { current_block_type := none
    current_tool_name := none
    tool_id := none
    tool_input_parts := []
    stop_reason := none
    registered := [] }

/-- One step of the stream event loop (app.py lines 394-425).  `parse` is the
json.loads oracle; returning `Except.error` models the exception a failed
parse raises (caught by the round's handler). -/
def stream_step (parse : String → Option ToolInput) (st : AsmState) :
    StreamEvent → Except String (AsmState × List ProgressEvent)
  | StreamEvent.content_block_start StartBlock.text =>
    Except.ok ({ st with current_block_type := some "text" }, [ProgressEvent.text_start])
  | StreamEvent.content_block_start (StartBlock.tool_use id name) =>
    Except.ok ({ st with
                  current_block_type := some "tool_use"
                  current_tool_name := some name
                  tool_id := some id
                  tool_input_parts := [] }, [ProgressEvent.tool_start name])
  | StreamEvent.content_block_delta (DeltaEvent.text_delta s) =>
    Except.ok (st, [ProgressEvent.text_delta s])
  | StreamEvent.content_block_delta (DeltaEvent.input_json_delta s) =>
    Except.ok ({ st with tool_input_parts := st.tool_input_parts ++ [s] },
               [ProgressEvent.tool_delta s])
  | StreamEvent.content_block_stop =>
    if st.current_block_type = some "tool_use" ∧ st.tool_input_parts ≠ [] then
      match parse (String.join st.tool_input_parts) with
      | none => Except.error "MalformedToolInput"
      | some ti =>
        let code := (inputGet ti "code").getD ""
        if st.current_tool_name = some "run_js" ∧ code ≠ "" then
          Except.ok ({ st with
                        current_block_type := none
                        current_tool_name := none
                        registered := st.registered ++ [st.tool_id] },
                     [ProgressEvent.js code st.tool_id])
        else
          Except.ok ({ st with current_block_type := none, current_tool_name := none }, [])
    else
      Except.ok ({ st with current_block_type := none, current_tool_name := none }, [])
  | StreamEvent.message_delta v =>
    Except.ok ({ st with stop_reason := v }, [])

/-! ### Conversation orchestrator (generate, app.py lines 378-470) -/

/-- The registered tool names (TOOLS, app.py lines 70-165). -/
def TOOL_NAMES : List String :=
  ["run_js", "bash", "read_file", "write_file", "edit_file", "list_files", "grep"]

/-- SANDBOX_TOOL_NAMES (app.py line 299): every tool name except run_js. -/
def SANDBOX_TOOL_NAMES : List String := TOOL_NAMES.filter (fun n => n ≠ "run_js")

/-- The output cap applied to sandbox results (app.py lines 449-450): results
longer than 10,000 code points keep their first 10,000 plus a marker. -/
def capResult (r : String) : String :=
  if 10000 < r.length then String.mk (r.data.take 10000) ++ "\n... (truncated)" else r

/-- The per-turn tool loop (app.py lines 437-459).  `sb name input` is the
string execute_sandbox_tool returns; `br id` is the pending_results content
for id at the moment of the pop (none when no submission was observed).
Returns the tool_result blocks in block order plus the action trace. -/
def toolLoop (sb : String → ToolInput → String) (br : String → Option String) :
    List ContentBlock → List ToolResult × List GAction
  | [] => ([], [])
  | ContentBlock.text _ :: rest => toolLoop sb br rest
  | ContentBlock.toolUse id name input :: rest =>
    let step :=
      if name = "run_js" then
        (((br id).getD "OK"), [GAction.brokerAwait id])
      else if name ∈ SANDBOX_TOOL_NAMES then
        let r := capResult (sb name input)
        (r, [GAction.sandboxCall name input,
             GAction.emit (SSE.progress (ProgressEvent.tool_output name id r))])
      else
        ("Error: Unknown tool " ++ name, [])
    let t := toolLoop sb br rest
    ((ToolResult.mk id step.1) :: t.1, step.2 ++ t.2)

/-- What one round does after the stream completes (app.py lines 429-464):
append the assistant turn, stop on end_turn, otherwise run the tool loop and
append one user message of tool results (stopping when there are none).
Returns the action list and whether the loop continues. -/
def roundActs (sb : String → ToolInput → String) (br : String → Option String)
    (content : List ContentBlock) (stop_reason : String) : List GAction × Bool :=
  if stop_reason = "end_turn" then
    ([GAction.appendMsg (Message.assistant content)], false)
  else
    let t := toolLoop sb br content
    if t.1.isEmpty then
      (GAction.appendMsg (Message.assistant content) :: t.2, false)
    else
      (GAction.appendMsg (Message.assistant content) :: t.2 ++
        [GAction.appendMsg (Message.toolResults t.1)], true)

/-- One model response in a scripted run of the generate loop: either a
completed stream (its forwarded progress events, final content blocks and
stop reason) or a fatal error striking after some events were forwarded and
some messages appended. -/
inductive RoundScript where
  | ok (events : List ProgressEvent) (content : List ContentBlock) (stop_reason : String)
  | fatal (events : List ProgressEvent) (msgs_before : List Message) (err : String)
deriving DecidableEq

/-- The generate loop (app.py lines 378-470) as a trace of actions, driven by
a script of model responses: each round calls the model, forwards stream
events, performs roundActs, and either recurses, or saves and emits done; a
fatal error yields one error event, then the save, then done (lines 466-470). -/
def runRounds (sb : String → ToolInput → String) (br : String → Option String)
    (chat_id : String) : List Message → List RoundScript → List GAction
  | msgs, [] => [GAction.save msgs, GAction.emit (SSE.done (some chat_id))]
  | msgs, RoundScript.fatal evs pmsgs err :: _ =>
    GAction.callModel msgs ::
      (evs.map (fun e => GAction.emit (SSE.progress e)) ++ pmsgs.map GAction.appendMsg ++
        [GAction.emit (SSE.error err), GAction.save (msgs ++ pmsgs),
         GAction.emit (SSE.done (some chat_id))])
  | msgs, RoundScript.ok evs content stop :: rest =>
    let r := roundActs sb br content stop
    let head := GAction.callModel msgs ::
      (evs.map (fun e => GAction.emit (SSE.progress e)) ++ r.1)
    if r.2 then
      head ++ runRounds sb br chat_id (msgs ++ r.1.filterMap GAction.appended) rest
    else
      head ++ [GAction.save (msgs ++ r.1.filterMap GAction.appended),
               GAction.emit (SSE.done (some chat_id))]

/-- The /chat endpoint (app.py lines 361-376): reject an empty message with an
error and an id-less done before allocating an id, loading the transcript or
touching the model; otherwise resolve the chat id and run the round loop. -/
def chat (sb : String → ToolInput → String) (br : String → Option String)
    (message : String) (chat_id_param : Option String) (fresh_id : String)
    (stored : List Message) (script : List RoundScript) : List GAction :=
  if message = "" then
    [GAction.emit (SSE.error "Empty message."), GAction.emit (SSE.done none)]
  else
    let chat_id := match chat_id_param with
      | none => fresh_id
      | some c => if c = "" then fresh_id else c
    runRounds sb br chat_id (stored ++ [Message.user message]) script

/-- Tool-use ids of an assistant turn, in block order. -/
def toolUseIds (blocks : List ContentBlock) : List String :=
  blocks.filterMap fun b => match b with
    | ContentBlock.toolUse id _ _ => some id
    | _ => none

/-- Per-block tool result (the body of the loop at app.py lines 438-459). -/
def blockResult (sb : String → ToolInput → String) (br : String → Option String) :
    ContentBlock → Option ToolResult
  | ContentBlock.text _ => none
  | ContentBlock.toolUse id name input =>
    some (ToolResult.mk id
      (if name = "run_js" then (br id).getD "OK"
       else if name ∈ SANDBOX_TOOL_NAMES then capResult (sb name input)
       else "Error: Unknown tool " ++ name))

/-! ### Concrete oracles used by witnesses and counterexamples -/

/-- A sandbox oracle returning a short fixed result. -/
def sbOut : String → ToolInput → String := fun _ _ => "out"

/-- A broker oracle with no submissions at all. -/
def brNone : String → Option String := fun _ => none

/-- A json-parse oracle that always fails. -/
def parseNone : String → Option ToolInput := fun _ => none

/-- A 10,001-character string, one character over the output cap. -/
def bigA : String := String.mk (List.replicate 10001 'a')

/-- A broker oracle delivering the over-cap string for tool id t1. -/
def brBig : String → Option String := fun id => if id = "t1" then some bigA else none

/-- A sandbox oracle returning the over-cap string. -/
def sbBig : String → ToolInput → String := fun _ _ => bigA

/-- A broker oracle delivering "R" for every id. -/
def brR : String → Option String := fun _ => some "R"

/-! ### Helper lemmas -/

theorem string_eq_empty_of_data {b : String} (h : b.data = []) : b = "" := by
  cases b
  simp only [String.data] at h
  subst h
  rfl

theorem str_append_ne_empty_right (a b : String) (h : b ≠ "") : a ++ b ≠ "" := by
  intro hc
  apply h
  have hd := congrArg String.data hc
  rw [String.data_append] at hd
  have : b.data = [] := (List.append_eq_nil.mp hd).2
  exact string_eq_empty_of_data this

theorem str_append_ne_empty_left (a b : String) (h : a ≠ "") : a ++ b ≠ "" := by
  intro hc
  apply h
  have hd := congrArg String.data hc
  rw [String.data_append] at hd
  have : a.data = [] := (List.append_eq_nil.mp hd).1
  exact string_eq_empty_of_data this

/-! ### C8: bash result construction -/

/-- C8.  Run (bash) result construction: the caller-visible result of a bash
invocation is stdout concatenated with stderr when stderr is nonempty, with a
newline separator exactly when stdout is also nonempty; and when the exit code
is nonzero and both streams are empty the result is "Exit code: N". -/
theorem bash_result_spec : ∀ (stdout stderr : String) (code : Int),
    (stderr ≠ "" → bash_result stdout stderr code =
      stdout ++ (if stdout = "" then "" else "\n") ++ stderr) ∧
    (code ≠ 0 → stdout = "" → stderr = "" →
      bash_result stdout stderr code = "Exit code: " ++ toString code) := by
  intro stdout stderr code
  constructor
  · intro hs
    have hne : stdout ++ (if stdout = "" then "" else "\n") ++ stderr ≠ "" :=
      str_append_ne_empty_right _ _ hs
    have h3 : ¬(code ≠ 0 ∧ stdout ++ (if stdout = "" then "" else "\n") ++ stderr = "") :=
      fun hand => hne hand.2
    simp only [bash_result, if_neg hs, if_neg h3, if_neg hne]
  · intro hc h1 h2
    subst h1
    subst h2
    have hne : ("Exit code: " : String) ++ toString code ≠ "" :=
      str_append_ne_empty_left _ _ (by decide)
    simp [bash_result, hc, hne]

/-- Witness for C8: both branches evaluated at concrete inputs. -/
theorem bash_result_spec_witness :
    bash_result "o" "e" 0 = "o" ++ (if ("o" : String) = "" then "" else "\n") ++ "e" ∧
    bash_result "" "" 7 = "Exit code: " ++ toString (7 : Int) :=
  ⟨(bash_result_spec "o" "e" 0).1 (by decide),
   (bash_result_spec "" "" 7).2 (by decide) rfl rfl⟩

/-! ### C3: remote-result timeout and resubmission -/

/-- C3 counterexample.  After a registered entry for "t1" is consumed by the
timeout path (no submission observed), a later submission for "t1" re-creates
an entry in the pending_results map: the claim's "never re-creates a pending
entry" fails on receive_tool_result, which stores unconditionally. -/
theorem broker_resubmission_counterexample :
    (receive_tool_result ((await_consume (register brokerInit "t1") "t1").2) "t1"
        (some "late")).pending_results "t1" = some "late" := by
  decide

/-- C3 as amended.  If no submission was observed for the id when the wait
completes, the consume step returns "OK" and removes the entry from both maps;
after consumption a later submission never re-creates a waiter (pending_events)
entry, but it does deposit the submitted result in pending_results. -/
theorem broker_timeout_amended : ∀ (s : BrokerState) (tid : String) (res : Option String),
    (s.pending_results tid = none →
      (await_consume s tid).1 = "OK" ∧
      (await_consume s tid).2.pending_results tid = none ∧
      (await_consume s tid).2.pending_events tid = none) ∧
    (s.pending_events tid = none →
      (receive_tool_result s tid res).pending_events tid = none ∧
      (receive_tool_result s tid res).pending_results tid = some (res.getD "OK")) := by
  intro s tid res
  refine ⟨fun h => ⟨?_, ?_, ?_⟩, fun h => ⟨?_, ?_⟩⟩
  · simp [await_consume, h]
  · simp [await_consume]
  · simp [await_consume]
  · simp [receive_tool_result, h]
  · simp [receive_tool_result]

/-- Witness for C3's amended theorem at the empty broker state. -/
theorem broker_timeout_amended_witness :
    (await_consume brokerInit "t1").1 = "OK" ∧
    (receive_tool_result brokerInit "t1" (some "x")).pending_results "t1" = some "x" :=
  ⟨((broker_timeout_amended brokerInit "t1" (some "x")).1 rfl).1,
   ((broker_timeout_amended brokerInit "t1" (some "x")).2 rfl).2⟩

/-! ### C5: orphan block-delta events -/

/-- C5 counterexample.  A text block-delta arriving in the initial state (no
block open) is not rejected: the assembler forwards it as a text_delta
progress event and succeeds, so no ProtocolError failure occurs. -/
theorem orphan_delta_counterexample :
    stream_step parseNone AsmState.initial
        (StreamEvent.content_block_delta (DeltaEvent.text_delta "hi")) =
      Except.ok (AsmState.initial, [ProgressEvent.text_delta "hi"]) := rfl

/-- C5 as amended.  The event loop performs no open-block check on delta
events: while no block is open, a text fragment is forwarded as a text_delta
progress event with the state unchanged, and a structured-argument fragment is
appended to the accumulator and forwarded as tool_delta; neither fails. -/
theorem orphan_delta_amended : ∀ (parse : String → Option ToolInput) (st : AsmState) (s : String),
    st.current_block_type = none →
    stream_step parse st (StreamEvent.content_block_delta (DeltaEvent.text_delta s)) =
      Except.ok (st, [ProgressEvent.text_delta s]) ∧
    stream_step parse st (StreamEvent.content_block_delta (DeltaEvent.input_json_delta s)) =
      Except.ok ({ st with tool_input_parts := st.tool_input_parts ++ [s] },
                 [ProgressEvent.tool_delta s]) := by
  intro parse st s _
  exact ⟨rfl, rfl⟩

/-- Witness for C5's amended theorem at the initial state. -/
theorem orphan_delta_amended_witness :
    AsmState.initial.current_block_type = none ∧
    stream_step parseNone AsmState.initial
        (StreamEvent.content_block_delta (DeltaEvent.input_json_delta "x")) =
      Except.ok ({ AsmState.initial with
                    tool_input_parts := AsmState.initial.tool_input_parts ++ ["x"] },
                 [ProgressEvent.tool_delta "x"]) :=
  ⟨rfl, (orphan_delta_amended parseNone AsmState.initial "x" rfl).2⟩

/-! ### C2: round termination on end_turn -/

/-- C2.  Round termination: when a completed assistant turn's stop reason is
end_turn, the loop appends the assistant message and stops at once, whatever
the content blocks are: the trace shows no sandbox call, no broker wait, no
tool_output emission, no tool-result user message, and the remaining script is
never consumed. -/
theorem round_termination_end_turn : ∀ (sb : String → ToolInput → String)
    (br : String → Option String) (cid : String) (msgs : List Message)
    (evs : List ProgressEvent) (content : List ContentBlock) (rest : List RoundScript),
    runRounds sb br cid msgs (RoundScript.ok evs content "end_turn" :: rest) =
      GAction.callModel msgs ::
        (evs.map (fun e => GAction.emit (SSE.progress e)) ++
          [GAction.appendMsg (Message.assistant content)]) ++
        [GAction.save (msgs ++ [Message.assistant content]),
         GAction.emit (SSE.done (some cid))] := by
  intro sb br cid msgs evs content rest
  simp [runRounds, roundActs, GAction.appended]

/-! ### Lemmas on the Python string primitives -/

theorem isPrefixOf_eq_true_iff : ∀ (a s : List Char), a.isPrefixOf s = true ↔ ∃ t, s = a ++ t := by
  intro a
  induction a with
  | nil =>
    intro s
    constructor
    · intro _
      exact ⟨s, rfl⟩
    · intro _
      cases s
      · rfl
      · rfl
  | cons x xs ih =>
    intro s
    cases s with
    | nil =>
      simp only [List.isPrefixOf]
      constructor
      · intro h; cases h
      · rintro ⟨t, ht⟩; cases ht
    | cons y ys =>
      simp only [List.isPrefixOf, Bool.and_eq_true, beq_iff_eq]
      constructor
      · rintro ⟨hxy, hp⟩
        obtain ⟨t, ht⟩ := (ih ys).mp hp
        exact ⟨t, by rw [hxy, ht]; rfl⟩
      · rintro ⟨t, ht⟩
        injection ht with h1 h2
        exact ⟨h1.symm, (ih ys).mpr ⟨t, h2⟩⟩

theorem strCountSkip_pos_of_contains (sub : List Char) (he : sub.isEmpty = false) :
    ∀ s, strContains sub s = true → 1 ≤ strCountSkip sub 0 s := by
  intro s
  induction s with
  | nil =>
    intro h
    rw [strContains] at h
    rw [h] at he
    cases he
  | cons c rest ih =>
    intro h
    rw [strContains] at h
    by_cases hp : sub.isPrefixOf (c :: rest) = true
    · simp only [strCountSkip, if_pos hp]
      omega
    · have hp2 : sub.isPrefixOf (c :: rest) = false := by
        cases hb : sub.isPrefixOf (c :: rest)
        · rfl
        · exact absurd hb hp
      rw [hp2] at h
      have hrest : strContains sub rest = true := by simpa using h
      simp only [strCountSkip, if_neg hp]
      exact ih hrest

theorem contains_of_strCountSkip_pos (sub : List Char) :
    ∀ s, 1 ≤ strCountSkip sub 0 s → strContains sub s = true := by
  intro s
  induction s with
  | nil =>
    intro h
    simp [strCountSkip] at h
  | cons c rest ih =>
    intro h
    rw [strContains]
    by_cases hp : sub.isPrefixOf (c :: rest) = true
    · rw [hp]
      rfl
    · simp only [strCountSkip, if_neg hp] at h
      rw [ih h]
      exact Bool.or_true _

theorem strCount_pos_of_contains (sub s : List Char) (h : strContains sub s = true) :
    1 ≤ strCount s sub := by
  unfold strCount
  by_cases he : sub.isEmpty = true
  · rw [if_pos he]
    omega
  · rw [if_neg he]
    have he2 : sub.isEmpty = false := by
      cases hb : sub.isEmpty
      · rfl
      · exact absurd hb he
    exact strCountSkip_pos_of_contains sub he2 s h

theorem contains_of_strCount_pos (sub s : List Char) (h : 1 ≤ strCount s sub) :
    strContains sub s = true := by
  unfold strCount at h
  by_cases he : sub.isEmpty = true
  · have hsub : sub = [] := by
      cases sub
      · rfl
      · simp [List.isEmpty] at he
    subst hsub
    cases s with
    | nil => rfl
    | cons c rest =>
      simp [strContains, List.isPrefixOf]
  · rw [if_neg he] at h
    exact contains_of_strCountSkip_pos sub s h

theorem replaceFirstAux_spec (d : Char) (ds new : List Char) :
    ∀ s, strContains (d :: ds) s = true →
      ∃ pre suf, s = pre ++ (d :: ds) ++ suf ∧
        replaceFirstAux (d :: ds) new s = pre ++ new ++ suf := by
  intro s
  induction s with
  | nil =>
    intro h
    rw [strContains] at h
    cases h
  | cons c rest ih =>
    intro h
    by_cases hp : (d :: ds).isPrefixOf (c :: rest) = true
    · obtain ⟨t, ht⟩ := (isPrefixOf_eq_true_iff _ _).mp hp
      injection ht with h1 h2
      refine ⟨[], t, ?_, ?_⟩
      · rw [List.nil_append]
        rw [h1, h2]
        rfl
      · simp only [replaceFirstAux, if_pos hp]
        rw [h2]
        simp [List.drop_left]
    · have hrest : strContains (d :: ds) rest = true := by
        rw [strContains] at h
        have hp2 : (d :: ds).isPrefixOf (c :: rest) = false := by
          cases hb : (d :: ds).isPrefixOf (c :: rest)
          · rfl
          · exact absurd hb hp
        rw [hp2] at h
        simpa using h
      obtain ⟨pre, suf, h1, h2⟩ := ih hrest
      refine ⟨c :: pre, suf, ?_, ?_⟩
      · rw [h1]
        rfl
      · simp only [replaceFirstAux, if_neg hp]
        rw [h2]
        rfl

/-! ### C4: edit uniqueness -/

/-- C4.  Edit uniqueness, for invocations whose read succeeds: zero
occurrences of old_string yield the not-found error and no write; two or more
yield the count-reporting refusal and no write; exactly one occurrence causes
exactly that occurrence to be replaced by new_string (the written content
splits around the unique occurrence) and the result to be written back. -/
theorem edit_uniqueness : ∀ (path old new : String) (readRes writeRes : ExecResult),
    readRes.code = 0 →
    (strCount readRes.stdout.data old.data = 0 →
      edit_file path old new readRes writeRes =
        { written := none, result := "Error: old_string not found in " ++ path }) ∧
    (∀ n, strCount readRes.stdout.data old.data = n → 2 ≤ n →
      edit_file path old new readRes writeRes =
        { written := none
          result := "Error: old_string appears " ++ toString n ++ " times in " ++
            path ++ ". Must be unique." }) ∧
    (strCount readRes.stdout.data old.data = 1 →
      (edit_file path old new readRes writeRes).written =
        some (pyReplaceFirst readRes.stdout.data old.data new.data) ∧
      ∃ pre suf, readRes.stdout.data = pre ++ old.data ++ suf ∧
        pyReplaceFirst readRes.stdout.data old.data new.data = pre ++ new.data ++ suf) := by
  intro path old new readRes writeRes hread
  have hcode : ¬(readRes.code ≠ 0) := fun h => h hread
  refine ⟨?_, ?_, ?_⟩
  · intro h0
    have hnc : strContains old.data readRes.stdout.data = false := by
      cases hb : strContains old.data readRes.stdout.data
      · rfl
      · have := strCount_pos_of_contains old.data readRes.stdout.data hb
        omega
    simp only [edit_file, if_neg hcode, if_pos hnc]
  · intro n hn h2
    have hc : strContains old.data readRes.stdout.data = true :=
      contains_of_strCount_pos old.data readRes.stdout.data (by omega)
    have hnc : ¬(strContains old.data readRes.stdout.data = false) := by
      rw [hc]
      exact fun h => Bool.noConfusion h
    simp only [edit_file, if_neg hcode, if_neg hnc, hn]
    rw [if_pos (by omega : n > 1)]
  · intro h1
    have hc : strContains old.data readRes.stdout.data = true :=
      contains_of_strCount_pos old.data readRes.stdout.data (by omega)
    have hnc : ¬(strContains old.data readRes.stdout.data = false) := by
      rw [hc]
      exact fun h => Bool.noConfusion h
    constructor
    · simp only [edit_file, if_neg hcode, if_neg hnc, h1]
      rw [if_neg (by omega : ¬(1 > 1))]
      by_cases hw : writeRes.code ≠ 0
      · rw [if_pos hw]
      · rw [if_neg hw]
    · cases hold : old.data with
      | nil =>
        have hlen : readRes.stdout.data.length + 1 = 1 := by
          rw [strCount, hold] at h1
          simpa using h1
        have hdata : readRes.stdout.data = [] := by
          cases hd : readRes.stdout.data
          · rfl
          · rw [hd] at hlen
            simp at hlen
        refine ⟨[], [], by simp [hdata], ?_⟩
        simp [pyReplaceFirst, hdata]
      | cons d ds =>
        have hemp2 : ¬((d :: ds).isEmpty = true) := by simp
        rw [pyReplaceFirst, if_neg hemp2]
        rw [hold] at hc
        exact replaceFirstAux_spec d ds new.data readRes.stdout.data hc

/-- Witness for C4: all three cases at concrete inputs (content "hello" with
absent "zz"; content "abab" with duplicated "ab"; unique "ell" replaced). -/
theorem edit_uniqueness_witness :
    edit_file "f" "zz" "q" (ExecResult.mk "hello" "" 0) (ExecResult.mk "" "" 0) =
      { written := none, result := "Error: old_string not found in " ++ "f" } ∧
    edit_file "f" "ab" "q" (ExecResult.mk "abab" "" 0) (ExecResult.mk "" "" 0) =
      { written := none
        result := "Error: old_string appears " ++ toString 2 ++ " times in " ++
          "f" ++ ". Must be unique." } ∧
    (edit_file "f" "ell" "ipp" (ExecResult.mk "hello" "" 0) (ExecResult.mk "" "" 0)).written =
      some (pyReplaceFirst "hello".data "ell".data "ipp".data) :=
  ⟨(edit_uniqueness "f" "zz" "q" (ExecResult.mk "hello" "" 0) (ExecResult.mk "" "" 0) rfl).1
      (by decide),
   (edit_uniqueness "f" "ab" "q" (ExecResult.mk "abab" "" 0) (ExecResult.mk "" "" 0) rfl).2.1
      2 (by decide) (by decide),
   ((edit_uniqueness "f" "ell" "ipp" (ExecResult.mk "hello" "" 0) (ExecResult.mk "" "" 0)
      rfl).2.2 (by decide)).1⟩

/-! ### Lemmas on the tool loop -/

theorem toolLoop_results_eq (sb : String → ToolInput → String) (br : String → Option String) :
    ∀ blocks, (toolLoop sb br blocks).1 = blocks.filterMap (blockResult sb br) := by
  intro blocks
  induction blocks with
  | nil => rfl
  | cons b rest ih =>
    cases b with
    | text t =>
      simpa [toolLoop, blockResult, List.filterMap_cons] using ih
    | toolUse id name input =>
      by_cases h1 : name = "run_js"
      · simp [toolLoop, blockResult, List.filterMap_cons, h1, ih]
      · by_cases h2 : name ∈ SANDBOX_TOOL_NAMES
        · simp [toolLoop, blockResult, List.filterMap_cons, h1, h2, ih]
        · simp [toolLoop, blockResult, List.filterMap_cons, h1, h2, ih]

theorem toolLoop_map_ids (sb : String → ToolInput → String) (br : String → Option String) :
    ∀ blocks, (toolLoop sb br blocks).1.map ToolResult.tool_use_id = toolUseIds blocks := by
  intro blocks
  induction blocks with
  | nil => rfl
  | cons b rest ih =>
    cases b with
    | text t =>
      simpa [toolLoop, toolUseIds, List.filterMap_cons] using ih
    | toolUse id name input =>
      simp only [toolLoop, toolUseIds, List.filterMap_cons, List.map_cons]
      rw [toolUseIds] at ih
      rw [ih]

theorem toolLoop_acts_ok (sb : String → ToolInput → String) (br : String → Option String) :
    ∀ blocks, ((toolLoop sb br blocks).2).all okAct = true := by
  intro blocks
  induction blocks with
  | nil => rfl
  | cons b rest ih =>
    cases b with
    | text t =>
      simpa [toolLoop] using ih
    | toolUse id name input =>
      by_cases h1 : name = "run_js"
      · simp [toolLoop, h1, okAct, ih]
      · by_cases h2 : name ∈ SANDBOX_TOOL_NAMES
        · simp [toolLoop, h1, h2, okAct, ih]
        · simp [toolLoop, h1, h2, okAct, ih]

theorem toolLoop_acts_no_append (sb : String → ToolInput → String) (br : String → Option String) :
    ∀ blocks, ((toolLoop sb br blocks).2).filterMap GAction.appended = [] := by
  intro blocks
  induction blocks with
  | nil => rfl
  | cons b rest ih =>
    cases b with
    | text t =>
      simpa [toolLoop] using ih
    | toolUse id name input =>
      by_cases h1 : name = "run_js"
      · simp [toolLoop, h1, GAction.appended, ih]
      · by_cases h2 : name ∈ SANDBOX_TOOL_NAMES
        · simp [toolLoop, h1, h2, GAction.appended, ih]
        · simp [toolLoop, h1, h2, GAction.appended, ih]

theorem toolLoop_output_names (sb : String → ToolInput → String) (br : String → Option String) :
    ∀ blocks name tid r,
      GAction.emit (SSE.progress (ProgressEvent.tool_output name tid r)) ∈ (toolLoop sb br blocks).2 →
      name ∈ SANDBOX_TOOL_NAMES := by
  intro blocks
  induction blocks with
  | nil =>
    intro name tid r h
    simp [toolLoop] at h
  | cons b rest ih =>
    intro name tid r h
    cases b with
    | text t =>
      rw [show toolLoop sb br (ContentBlock.text t :: rest) = toolLoop sb br rest from rfl] at h
      exact ih name tid r h
    | toolUse id bname input =>
      by_cases h1 : bname = "run_js"
      · simp only [toolLoop, h1, if_pos rfl] at h
        rcases List.mem_append.mp h with hl | hr
        · simp at hl
        · exact ih name tid r hr
      · by_cases h2 : bname ∈ SANDBOX_TOOL_NAMES
        · simp only [toolLoop, if_neg h1, if_pos h2] at h
          rcases List.mem_append.mp h with hl | hr
          · rcases List.mem_cons.mp hl with he | he
            · cases he
            · have h3 := List.mem_singleton.mp he
              have h4 : name = bname := by
                injection h3 with hs
                injection hs with hp
                injection hp with ha hb hc
              rw [h4]
              exact h2
          · exact ih name tid r hr
        · simp only [toolLoop, if_neg h1, if_neg h2] at h
          rcases List.mem_append.mp h with hl | hr
          · simp at hl
          · exact ih name tid r hr

/-! ### C1: correlation integrity -/

/-- C1.  Correlation integrity: whenever a round continues (stop reason not
end_turn and at least one tool invocation), the appended actions are exactly
the assistant message, the tool-loop actions (which append no messages), and
one user-role tool-result message; the results' tool_use_ids equal the turn's
ToolUseBlock ids in block order, every result id occurs among the turn's ids,
and under unique invocation ids each id has exactly one result. -/
theorem correlation_integrity : ∀ (sb : String → ToolInput → String)
    (br : String → Option String) (content : List ContentBlock) (stop : String),
    (roundActs sb br content stop).2 = true →
    (roundActs sb br content stop).1 =
        GAction.appendMsg (Message.assistant content) ::
          (toolLoop sb br content).2 ++
          [GAction.appendMsg (Message.toolResults (toolLoop sb br content).1)] ∧
    Message.role (Message.toolResults (toolLoop sb br content).1) = "user" ∧
    ((toolLoop sb br content).2).filterMap GAction.appended = [] ∧
    (toolLoop sb br content).1.map ToolResult.tool_use_id = toolUseIds content ∧
    (∀ r ∈ (toolLoop sb br content).1, r.tool_use_id ∈ toolUseIds content) ∧
    ((toolUseIds content).Nodup → ∀ x ∈ toolUseIds content,
        ((toolLoop sb br content).1.map ToolResult.tool_use_id).count x = 1) := by
  intro sb br content stop hcont
  have hmap := toolLoop_map_ids sb br content
  refine ⟨?_, rfl, toolLoop_acts_no_append sb br content, hmap, ?_, ?_⟩
  · simp only [roundActs] at hcont ⊢
    by_cases hstop : stop = "end_turn"
    · rw [if_pos hstop] at hcont
      cases hcont
    · rw [if_neg hstop] at hcont ⊢
      by_cases hemp : (toolLoop sb br content).1.isEmpty = true
      · rw [if_pos hemp] at hcont
        cases hcont
      · rw [if_neg hemp]
  · intro r hr
    have hm : r.tool_use_id ∈ (toolLoop sb br content).1.map ToolResult.tool_use_id :=
      List.mem_map_of_mem _ hr
    rwa [hmap] at hm
  · intro hnd x hx
    rw [hmap]
    exact List.count_eq_one_of_mem hnd hx

/-- Concrete assistant turn used by C1's witness. -/
def blocksW : List ContentBlock := [ContentBlock.toolUse "t1" "bash" [("command", "ls")]]

/-- Witness for C1: a continuing round with one bash invocation. -/
theorem correlation_integrity_witness :
    (roundActs sbOut brNone blocksW "tool_use").2 = true ∧
    (toolLoop sbOut brNone blocksW).1.map ToolResult.tool_use_id = toolUseIds blocksW ∧
    ((toolLoop sbOut brNone blocksW).1.map ToolResult.tool_use_id).count "t1" = 1 :=
  ⟨by decide,
   (correlation_integrity sbOut brNone blocksW "tool_use" (by decide)).2.2.2.1,
   (correlation_integrity sbOut brNone blocksW "tool_use" (by decide)).2.2.2.2.2
     (by decide) "t1" (by decide)⟩

/-! ### C6: truncation of tool results -/

theorem bigA_data : bigA.data = List.replicate 10001 'a' := rfl

theorem bigA_length : bigA.length = 10001 := by
  show (List.replicate 10001 'a').length = 10001
  exact List.length_replicate 10001 'a'

/-- C6 counterexample.  A run_js result of 10,001 characters delivered by the
broker is appended to the transcript verbatim: it exceeds the cap yet is not
equal to its first 10,000 characters plus the truncation marker, refuting the
claim that every over-cap tool result is truncated before being appended. -/
theorem truncation_counterexample :
    (roundActs sbOut brBig [ContentBlock.toolUse "t1" "run_js" []] "tool_use").1 =
      [GAction.appendMsg (Message.assistant [ContentBlock.toolUse "t1" "run_js" []]),
       GAction.brokerAwait "t1",
       GAction.appendMsg (Message.toolResults [ToolResult.mk "t1" bigA])] ∧
    10000 < bigA.length ∧
    bigA ≠ String.mk (bigA.data.take 10000) ++ "\n... (truncated)" := by
  refine ⟨rfl, ?_, ?_⟩
  · rw [bigA_length]
    decide
  · intro h
    have hlen := congrArg String.length h
    rw [String.length_append, bigA_length] at hlen
    have h2 : (String.mk (bigA.data.take 10000)).length = 10000 := by
      show (bigA.data.take 10000).length = 10000
      rw [bigA_data, List.length_take, List.length_replicate]
      decide
    have h3 : ("\n... (truncated)" : String).length = 16 := rfl
    rw [h2, h3] at hlen
    omega

/-- C6 as amended.  The 10,000-unit truncation applies to sandbox-executed
tool results: a sandbox invocation whose raw result exceeds the cap has its
result appended as the first 10,000 units plus the truncation marker. -/
theorem truncation_amended : ∀ (sb : String → ToolInput → String)
    (br : String → Option String) (blocks : List ContentBlock)
    (id name : String) (input : ToolInput),
    ContentBlock.toolUse id name input ∈ blocks →
    name ∈ SANDBOX_TOOL_NAMES →
    10000 < (sb name input).length →
    ToolResult.mk id (String.mk ((sb name input).data.take 10000) ++ "\n... (truncated)") ∈
      (toolLoop sb br blocks).1 := by
  intro sb br blocks id name input hmem hname hlen
  rw [toolLoop_results_eq]
  apply List.mem_filterMap.mpr
  refine ⟨ContentBlock.toolUse id name input, hmem, ?_⟩
  have hnr : ("run_js" : String) ∉ SANDBOX_TOOL_NAMES := by decide
  have hrj : name ≠ "run_js" := fun h => hnr (h ▸ hname)
  simp only [blockResult, if_neg hrj, if_pos hname, capResult, if_pos hlen]

/-- Witness for C6's amended theorem: a bash result of 10,001 characters. -/
theorem truncation_amended_witness :
    ToolResult.mk "t1" (String.mk ((sbBig "bash" []).data.take 10000) ++ "\n... (truncated)") ∈
      (toolLoop sbBig brNone [ContentBlock.toolUse "t1" "bash" []]).1 :=
  truncation_amended sbBig brNone [ContentBlock.toolUse "t1" "bash" []] "t1" "bash" []
    (by decide) (by decide)
    (by show 10000 < bigA.length; rw [bigA_length]; decide)

/-! ### C10: truncation scope -/

/-- C10.  Truncation scope: every tool_output progress event carries a
sandbox tool name (and run_js is not one); a run_js invocation's appended
result is exactly the broker-delivered value (default "OK"), whatever its
length; and an unknown tool's appended result is exactly the synthesized
error string — neither passes through the cap nor emits tool_output. -/
theorem truncation_scope : ∀ (sb : String → ToolInput → String)
    (br : String → Option String) (blocks : List ContentBlock),
    ("run_js" : String) ∉ SANDBOX_TOOL_NAMES ∧
    (∀ name tid r, GAction.emit (SSE.progress (ProgressEvent.tool_output name tid r)) ∈
        (toolLoop sb br blocks).2 → name ∈ SANDBOX_TOOL_NAMES) ∧
    (∀ id input, ContentBlock.toolUse id "run_js" input ∈ blocks →
        ToolResult.mk id ((br id).getD "OK") ∈ (toolLoop sb br blocks).1) ∧
    (∀ id name input, ContentBlock.toolUse id name input ∈ blocks → name ≠ "run_js" →
        name ∉ SANDBOX_TOOL_NAMES →
        ToolResult.mk id ("Error: Unknown tool " ++ name) ∈ (toolLoop sb br blocks).1) := by
  intro sb br blocks
  refine ⟨by decide, toolLoop_output_names sb br blocks, ?_, ?_⟩
  · intro id input hmem
    rw [toolLoop_results_eq]
    exact List.mem_filterMap.mpr ⟨ContentBlock.toolUse id "run_js" input, hmem,
      by simp [blockResult]⟩
  · intro id name input hmem hrj hsb
    rw [toolLoop_results_eq]
    exact List.mem_filterMap.mpr ⟨ContentBlock.toolUse id name input, hmem,
      by simp [blockResult, hrj, hsb]⟩

/-- Concrete assistant turn used by C10's witness. -/
def blocksW10 : List ContentBlock :=
  [ContentBlock.toolUse "a" "run_js" [], ContentBlock.toolUse "b" "mystery" []]

/-- Witness for C10: a run_js result delivered verbatim and an unknown-tool
error result. -/
theorem truncation_scope_witness :
    ToolResult.mk "a" "R" ∈ (toolLoop sbOut brR blocksW10).1 ∧
    ToolResult.mk "b" ("Error: Unknown tool " ++ "mystery") ∈ (toolLoop sbOut brR blocksW10).1 :=
  ⟨(truncation_scope sbOut brR blocksW10).2.2.1 "a" [] (by decide),
   (truncation_scope sbOut brR blocksW10).2.2.2 "b" "mystery" [] (by decide) (by decide)
     (by decide)⟩

/-! ### Lemmas on the action trace -/

theorem appended_appendMsg (m : Message) : GAction.appended (GAction.appendMsg m) = some m := rfl

theorem appended_emit (e : SSE) : GAction.appended (GAction.emit e) = none := rfl

theorem appended_callModel (ms : List Message) :
    GAction.appended (GAction.callModel ms) = none := rfl

theorem okAct_emit_progress (p : ProgressEvent) :
    okAct (GAction.emit (SSE.progress p)) = true := rfl

theorem okAct_callModel (ms : List Message) : okAct (GAction.callModel ms) = true := rfl

theorem okAct_appendMsg (m : Message) : okAct (GAction.appendMsg m) = true := rfl

theorem emitted_no_append (evs : List ProgressEvent) :
    (evs.map (fun e => GAction.emit (SSE.progress e))).filterMap GAction.appended = [] := by
  induction evs with
  | nil => rfl
  | cons e rest ih => simpa [appended_emit] using ih

theorem appendMsg_list_append (ms : List Message) :
    (ms.map GAction.appendMsg).filterMap GAction.appended = ms := by
  induction ms with
  | nil => rfl
  | cons m rest ih => simpa [appended_appendMsg] using ih

theorem emitted_all_ok (evs : List ProgressEvent) :
    (evs.map (fun e => GAction.emit (SSE.progress e))).all okAct = true := by
  induction evs with
  | nil => rfl
  | cons e rest ih => simpa [okAct_emit_progress] using ih

theorem appendMsg_all_ok (ms : List Message) :
    (ms.map GAction.appendMsg).all okAct = true := by
  induction ms with
  | nil => rfl
  | cons m rest ih => simpa [okAct_appendMsg] using ih

theorem not_mem_of_all_ok (l : List GAction) (h : l.all okAct = true) (e : String) :
    GAction.emit (SSE.error e) ∉ l := by
  intro hm
  have h2 := List.all_eq_true.mp h _ hm
  simp [okAct] at h2

theorem roundActs_all_ok (sb : String → ToolInput → String) (br : String → Option String)
    (content : List ContentBlock) (stop : String) :
    ((roundActs sb br content stop).1).all okAct = true := by
  simp only [roundActs]
  by_cases hstop : stop = "end_turn"
  · rw [if_pos hstop]
    rfl
  · rw [if_neg hstop]
    by_cases hemp : (toolLoop sb br content).1.isEmpty = true
    · rw [if_pos hemp]
      simp [okAct_appendMsg, toolLoop_acts_ok sb br content]
    · rw [if_neg hemp]
      simp [okAct_appendMsg, okAct, toolLoop_acts_ok sb br content]

/-! ### C7: fatal-error behavior -/

/-- C7.  Fatal-error behavior: whenever the round loop's trace contains an
error emission, the whole trace is a prefix of benign actions (no error, no
done, no save) followed by exactly that one error event, then a save of the
initial messages plus every message appended in the prefix, then the one done
event — so the transcript as of the error is persisted before done. -/
theorem fatal_error_trace : ∀ (sb : String → ToolInput → String) (br : String → Option String)
    (cid : String) (sc : List RoundScript) (msgs : List Message) (err : String),
    GAction.emit (SSE.error err) ∈ runRounds sb br cid msgs sc →
    ∃ pre, runRounds sb br cid msgs sc =
        pre ++ [GAction.emit (SSE.error err),
                GAction.save (msgs ++ pre.filterMap GAction.appended),
                GAction.emit (SSE.done (some cid))] ∧
      pre.all okAct = true := by
  intro sb br cid sc
  induction sc with
  | nil =>
    intro msgs err h
    simp [runRounds] at h
  | cons round rest ih =>
    intro msgs err h
    cases round with
    | fatal evs pmsgs e =>
      have he : err = e := by
        simp only [runRounds] at h
        rcases List.mem_cons.mp h with h0 | h1
        · cases h0
        · rcases List.mem_append.mp h1 with h2 | h3
          · rcases List.mem_append.mp h2 with h4 | h5
            · rcases List.mem_map.mp h4 with ⟨p, _, hp⟩
              cases hp
            · rcases List.mem_map.mp h5 with ⟨m, _, hm⟩
              cases hm
          · rcases List.mem_cons.mp h3 with h6 | h7
            · injection h6 with hs
              injection hs with hc
            · rcases List.mem_cons.mp h7 with h8 | h9
              · cases h8
              · rcases List.mem_cons.mp h9 with h10 | h11
                · injection h10 with hs
                  injection hs
                · cases h11
      subst he
      refine ⟨GAction.callModel msgs ::
          (evs.map (fun ev => GAction.emit (SSE.progress ev)) ++ pmsgs.map GAction.appendMsg),
        ?_, ?_⟩
      · have hfm : (GAction.callModel msgs ::
            (evs.map (fun ev => GAction.emit (SSE.progress ev)) ++
              pmsgs.map GAction.appendMsg)).filterMap GAction.appended = pmsgs := by
          simp only [List.filterMap_cons, appended_callModel, List.filterMap_append,
            emitted_no_append, appendMsg_list_append, List.nil_append]
        rw [hfm]
        simp [runRounds]
      · simp [List.all_append, okAct_callModel, emitted_all_ok, appendMsg_all_ok]
    | ok evs content stop =>
      by_cases hc : (roundActs sb br content stop).2 = true
      · simp only [runRounds] at h ⊢
        rw [if_pos hc] at h ⊢
        have hhead : (GAction.callModel msgs ::
            (evs.map (fun ev => GAction.emit (SSE.progress ev)) ++
              (roundActs sb br content stop).1)).all okAct = true := by
          simp [List.all_append, okAct_callModel, emitted_all_ok,
            roundActs_all_ok sb br content stop]
        have htail : GAction.emit (SSE.error err) ∈
            runRounds sb br cid
              (msgs ++ ((roundActs sb br content stop).1).filterMap GAction.appended) rest := by
          rcases List.mem_append.mp h with h1 | h2
          · exact absurd h1 (not_mem_of_all_ok _ hhead err)
          · exact h2
        obtain ⟨pre, heq, hok⟩ := ih _ err htail
        refine ⟨(GAction.callModel msgs ::
            (evs.map (fun ev => GAction.emit (SSE.progress ev)) ++
              (roundActs sb br content stop).1)) ++ pre, ?_, ?_⟩
        · have hfm : ((GAction.callModel msgs ::
              (evs.map (fun ev => GAction.emit (SSE.progress ev)) ++
                (roundActs sb br content stop).1)) ++ pre).filterMap GAction.appended =
              ((roundActs sb br content stop).1).filterMap GAction.appended ++
                pre.filterMap GAction.appended := by
            simp only [List.filterMap_append, List.filterMap_cons, appended_callModel,
              emitted_no_append, List.nil_append]
          rw [heq, hfm]
          simp [List.append_assoc]
        · simp only [List.all_append, hhead, hok]
          rfl
      · exfalso
        simp only [runRounds] at h
        rw [if_neg hc] at h
        have hhead : (GAction.callModel msgs ::
            (evs.map (fun ev => GAction.emit (SSE.progress ev)) ++
              (roundActs sb br content stop).1)).all okAct = true := by
          simp [List.all_append, okAct_callModel, emitted_all_ok,
            roundActs_all_ok sb br content stop]
        rcases List.mem_append.mp h with h1 | h2
        · exact not_mem_of_all_ok _ hhead err h1
        · rcases List.mem_cons.mp h2 with h3 | h4
          · cases h3
          · rcases List.mem_cons.mp h4 with h5 | h6
            · injection h5 with hs
              injection hs
            · cases h6

/-- Witness for C7: a script whose first model call fails fatally. -/
theorem fatal_error_trace_witness :
    ∃ pre, runRounds sbOut brNone "c1" [] [RoundScript.fatal [] [] "boom"] =
        pre ++ [GAction.emit (SSE.error "boom"),
                GAction.save ([] ++ pre.filterMap GAction.appended),
                GAction.emit (SSE.done (some "c1"))] ∧
      pre.all okAct = true :=
  fatal_error_trace sbOut brNone "c1" [RoundScript.fatal [] [] "boom"] [] "boom" (by decide)

/-! ### C9: empty user message -/

/-- C9.  Empty user message: a chat request whose message text is empty
produces exactly one error event "Empty message." and one done event with no
chat id; the trace contains no save (no transcript created or modified) and
no model call, and no chat id is resolved or allocated. -/
theorem empty_message_shortcircuit : ∀ (sb : String → ToolInput → String)
    (br : String → Option String) (chat_id_param : Option String) (fresh_id : String)
    (stored : List Message) (script : List RoundScript) (message : String),
    message = "" →
    chat sb br message chat_id_param fresh_id stored script =
      [GAction.emit (SSE.error "Empty message."), GAction.emit (SSE.done none)] ∧
    (∀ m, GAction.save m ∉ chat sb br message chat_id_param fresh_id stored script) ∧
    (∀ ms, GAction.callModel ms ∉ chat sb br message chat_id_param fresh_id stored script) := by
  intro sb br cp fid stored script message hmsg
  subst hmsg
  refine ⟨by simp [chat], ?_, ?_⟩
  · intro m hm
    simp [chat] at hm
  · intro ms hm
    simp [chat] at hm

/-- Witness for C9 at a concrete request with an empty message. -/
theorem empty_message_shortcircuit_witness :
    chat sbOut brNone "" none "fresh" [] [] =
      [GAction.emit (SSE.error "Empty message."), GAction.emit (SSE.done none)] :=
  (empty_message_shortcircuit sbOut brNone none "fresh" [] [] "" rfl).1

end App
